import Mathlib

/-!
Shallow embedding of `src/drumlogue/vapo2/resources/generate_wavetables.py`.

The script converts 8-bit, 64-sample PPG waveforms into 16-bit, 256-sample
wavetables: it chunks the parsed numeric stream into 64-sample raw waveforms,
recenters and rescales each sample to signed 16-bit, resamples 64 → 256 with a
cubic interpolant over a periodic extension, optionally integrates for
anti-aliased playback, appends 4 guard samples, and assembles 16 banks of
8 waves each together with per-bank pointer tables, a master bank table and a
parallel bank-name table.

All floating-point arithmetic of the script is modelled over `ℚ`.  For the
stages whose claims we settle, the float computations are exact (integer-valued
inputs, clipping before the int16 cast), so the rational model is faithful.
`numpy` casts to `int16` after an explicit clip to `[-32767, 32767]`; the cast
truncates toward zero, modelled by `truncQ`.
-/

set_option autoImplicit false

namespace Vapo2

/-- Configuration constant `PPG_SAMPLES = 64` (raw waveform length). -/
def PPG_SAMPLES : Nat := 64

/-- Configuration constant `TARGET_SAMPLES = 256`. -/
def TARGET_SAMPLES : Nat := 256

/-- Configuration constant `GUARD_SAMPLES = 4`. -/
def GUARD_SAMPLES : Nat := 4

/-- Configuration constant `WAVES_PER_BANK = 8`. -/
def WAVES_PER_BANK : Nat := 8

/-- Configuration constant `NUM_BANKS = 16`. -/
def NUM_BANKS : Nat := 16

/-- The module-level `BANK_SELECTIONS` dictionary: bank name ↦ ordered list of
indices into the extracted waveform set.  Python dictionaries preserve
insertion order, so a list of pairs is a faithful model. -/
def BANK_SELECTIONS : List (String × List Nat) :=
  [("UPPER_WT", [0, 1, 2, 3, 4, 5, 6, 7]),
   ("RESONANT1", [8, 9, 10, 11, 12, 13, 14, 15]),
   ("RESONANT2", [16, 17, 18, 19, 20, 21, 22, 23]),
   ("MELLOW", [24, 25, 26, 27, 28, 29, 30, 31]),
   ("BRIGHT", [32, 33, 34, 35, 36, 37, 38, 39]),
   ("HARSH", [40, 41, 42, 43, 44, 45, 46, 47]),
   ("CLIPPER", [48, 49, 50, 51, 52, 53, 54, 55]),
   ("SYNC", [56, 57, 58, 59, 60, 61, 62, 63]),
   ("PWM", [64, 65, 66, 67, 68, 69, 70, 71]),
   ("VOCAL1", [72, 73, 74, 75, 76, 77, 78, 79]),
   ("VOCAL2", [80, 81, 82, 83, 84, 85, 86, 87]),
   ("ORGAN", [88, 89, 90, 91, 92, 93, 94, 95]),
   ("BELL", [96, 97, 98, 99, 100, 101, 102, 103]),
   ("ALIEN", [104, 105, 106, 107, 108, 109, 110, 111]),
   ("NOISE", [112, 113, 114, 115, 116, 117, 118, 119]),
   ("SPECIAL", [120, 121, 122, 123, 124, 125, 126, 127])]

/-! ## Legacy Waveform Extractor (chunking stage of `parse_ppg_waveforms`)

The regex part of `parse_ppg_waveforms` yields a flat list of parsed numeric
values; the loop

    for i in range(0, len(values), PPG_SAMPLES):
        if i + PPG_SAMPLES <= len(values):
            waveforms.append(np.array(values[i:i + PPG_SAMPLES], dtype=np.uint8))

splits it into consecutive 64-sample chunks, dropping a trailing partial
chunk.  `np.array(..., dtype=np.uint8)` reduces each value mod 256. -/

/-- Fueled loop body for the chunking stage.  Each iteration consumes
`PPG_SAMPLES ≥ 1` values, so fuel equal to the initial stream length is
always sufficient; the structural recursion keeps the definition
kernel-reducible. -/
def chunkPPGAux : Nat → List Nat → List (List Nat)
  | 0, _ => []
  | Nat.succ fuel, values =>
    if PPG_SAMPLES ≤ values.length then
      (values.take PPG_SAMPLES).map (fun v => v % 256) ::
        chunkPPGAux fuel (values.drop PPG_SAMPLES)
    else []

/-- Chunking stage of `parse_ppg_waveforms`: consecutive `PPG_SAMPLES`-sized
chunks of the parsed value stream, each value reduced mod 256 by the
`np.uint8` cast; a trailing partial chunk is discarded. -/
def chunkPPG (values : List Nat) : List (List Nat) :=
  chunkPPGAux values.length values

/-! ## Signal Converter (`convert_to_signed16`)

    signed = (wave.astype(np.float64) - 128.0) * 256.0
    return np.clip(signed, -32767, 32767).astype(np.int16)

For raw samples `s : ℕ` the float computation `(s - 128.0) * 256.0` is exact
(integers of magnitude ≤ 2^25), and after clipping to `[-32767, 32767]` the
`int16` cast is the identity, so the whole map is exact integer arithmetic. -/

/-- Per-sample body of `convert_to_signed16`: recenter at 128, scale by 256,
clip to `[-32767, 32767]`. -/
def toSigned16 (s : Nat) : Int :=
  max (-32767) (min (((s : Int) - 128) * 256) 32767)

/-- The function `convert_to_signed16`: sample-wise conversion of a raw
waveform to signed 16-bit.  There is no length check in the source. -/
def convert_to_signed16 (wave : List Nat) : List Int :=
  wave.map toSigned16

/-! ## Rational models of the numpy float helpers -/

/-- Model of `np.clip(x, -32767, 32767)` on a float value. -/
def clip16 (q : ℚ) : ℚ :=
  max (-32767) (min q 32767)

/-- Model of the `astype(np.int16)` cast on a clipped float value: C-style
truncation toward zero.  (After `clip16` the value is within int16 range, so
no wrapping occurs.) -/
def truncQ (q : ℚ) : Int :=
  if 0 ≤ q.num then ((q.num.toNat / q.den : Nat) : Int)
  else -(((-q.num).toNat / q.den : Nat) : Int)

/-- Model of `np.linspace(a, b, n)` (default `endpoint=True`):
`n = 0` gives `[]`, `n = 1` gives `[a]`, otherwise `a + i*(b-a)/(n-1)`. -/
def linspaceQ (a b : ℚ) (n : Nat) : List ℚ :=
  if n = 0 then []
  else if n = 1 then [a]
  else (List.range n).map (fun (i : Nat) => a + (i : ℚ) * (b - a) / ((n - 1 : Nat) : ℚ))

/-- Model of `np.cumsum`, with an explicit running accumulator. -/
def cumsumFrom (acc : ℚ) : List ℚ → List ℚ
  | [] => []
  | x :: xs => (acc + x) :: cumsumFrom (acc + x) xs

/-- `cumsum l` is the list of partial sums of `l`. -/
def cumsum (l : List ℚ) : List ℚ := cumsumFrom 0 l

/-- Model of `np.max(np.abs(l))` (which errors on `[]`; on nonempty input the
fold with neutral element 0 agrees because the values `|x|` are ≥ 0). -/
def maxAbs (l : List ℚ) : ℚ :=
  (l.map (fun x => |x|)).foldr max 0

/-! ## Anti-Aliasing Integrator (`integrate_wave`)

    integrated = np.cumsum(wave.astype(np.float64))
    n = len(integrated)
    dc_ramp = np.linspace(0, integrated[-1], n)
    integrated = integrated - dc_ramp
    max_val = np.max(np.abs(integrated))
    if max_val > 0:
        integrated = integrated * (30000.0 / max_val)
    return np.clip(integrated, -32767, 32767).astype(np.int16)
-/

/-- Drift-removal step of `integrate_wave`: cumulative sum minus the ramp
`np.linspace(0, integrated[-1], n)` (endpoints 0 and the last cumulative
value). -/
def driftRemoved (wave : List ℚ) : List ℚ :=
  let integrated := cumsum wave
  let ramp := linspaceQ 0 (integrated.getLastD 0) integrated.length
  List.zipWith (fun x r => x - r) integrated ramp

/-- The function `integrate_wave`: cumulative sum, drift removal, peak
normalization to 30000 (guarded against a zero peak), clip and int16 cast. -/
def integrate_wave (wave : List ℚ) : List Int :=
  let d := driftRemoved wave
  let maxVal := maxAbs d
  let scaled := if 0 < maxVal then d.map (fun x => x * (30000 / maxVal)) else d
  (scaled.map clip16).map truncQ

/-- Modelled from the spec: the drift-removal step as the spec's words state
it, subtracting a ramp whose endpoints are the FIRST cumulative value and the
last cumulative value (the code instead uses endpoints 0 and the last
cumulative value).  Used only to compare against `driftRemoved`. -/
def driftRemovedSpec (wave : List ℚ) : List ℚ :=
  let integrated := cumsum wave
  let ramp := linspaceQ (integrated.headD 0) (integrated.getLastD 0) integrated.length
  List.zipWith (fun x r => x - r) integrated ramp

/-- Modelled from the spec: `integrate_wave` with the spec-worded drift
removal substituted, all other steps unchanged. -/
def integrate_wave_specDrift (wave : List ℚ) : List Int :=
  let d := driftRemovedSpec wave
  let maxVal := maxAbs d
  let scaled := if 0 < maxVal then d.map (fun x => x * (30000 / maxVal)) else d
  (scaled.map clip16).map truncQ

/-! ## Periodic Resampler (`interpolate_wave`)

    x_old = np.linspace(0, 1, len(wave), endpoint=False)
    x_new = np.linspace(0, 1, target_samples, endpoint=False)
    wave_extended = np.concatenate([wave, wave[:4]])
    x_extended = np.concatenate([x_old, x_old[:4] + 1.0])
    f = interpolate.interp1d(x_extended, wave_extended, kind='cubic')
    return f(x_new)

With `L = len(wave)` the knots are `x_extended[j] = j / L` for
`j = 0 .. L + min(4, L) - 1` — a uniform grid of spacing `h = 1/L` (the
4-sample periodic extension continues the grid past 1).  `interp1d` with
`kind='cubic'` builds the interpolating cubic spline with not-a-knot boundary
conditions; we model it in the classical second-derivative form: on interval
`[x_j, x_{j+1}]`,

  S_j(x) = M_j (x_{j+1}-x)^3/(6h) + M_{j+1} (x-x_j)^3/(6h)
         + (y_j - M_j h^2/6)(x_{j+1}-x)/h + (y_{j+1} - M_{j+1} h^2/6)(x-x_j)/h

where the second derivatives `M` solve the C1-continuity tridiagonal system
with not-a-knot closures, solved exactly over `ℚ` by Gaussian elimination.
In this form `S_j(x_j) = y_j` and `S_j(x_{j+1}) = y_{j+1}` hold for any `M`,
which is the knot-interpolation property of the scipy spline. -/

/-- Dot product of two rational vectors. -/
def dotQ (a b : List ℚ) : ℚ :=
  (List.zipWith (fun x y => x * y) a b).sum

/-- Select the first row with a nonzero leading coefficient (partial
pivoting); returns it together with the remaining rows. -/
def pivotRow : List (List ℚ) → Option (List ℚ × List (List ℚ))
  | [] => none
  | r :: rs =>
    if r.headD 0 ≠ 0 then some (r, rs)
    else
      match pivotRow rs with
      | some (p, rest) => some (p, r :: rest)
      | none => none

theorem pivotRow_length :
    ∀ rows p rest, pivotRow rows = some (p, rest) → rest.length + 1 = rows.length := by
  intro rows
  induction rows with
  | nil => intro p rest h; simp [pivotRow] at h
  | cons r rs ih =>
    intro p rest h
    cases hrs : pivotRow rs with
    | none =>
      simp only [pivotRow, hrs] at h
      split at h
      · cases h; simp
      · cases h
    | some q =>
      obtain ⟨p2, rest2⟩ := q
      simp only [pivotRow, hrs] at h
      split at h
      · cases h; simp
      · cases h
        have := ih _ _ hrs
        simp only [List.length_cons]
        omega

/-- One elimination step: subtract the multiple of the pivot row that cancels
the leading coefficient of `r`, then drop that (now zero) leading entry. -/
def elimStep (p r : List ℚ) : List ℚ :=
  let f := r.headD 0 / p.headD 0
  (List.zipWith (fun a b => a - f * b) r p).drop 1

/-- Forward pass of Gaussian elimination over `ℚ`, producing the rows of an
upper-triangular system (each successive row one entry shorter). -/
def gaussElim (rows : List (List ℚ)) : List (List ℚ) :=
  match hp : pivotRow rows with
  | none => []
  | some (p, rest) => p :: gaussElim (rest.map (elimStep p))
termination_by rows.length
decreasing_by
  have := pivotRow_length rows p rest hp
  simp only [List.length_map]
  omega

/-- Back substitution on the upper-triangular rows: each augmented row
`[c_k, c_{k+1}, …, c_{n-1}, rhs]` yields
`x_k = (rhs - Σ c_{k+j}·x_{k+j}) / c_k`. -/
def backSub : List (List ℚ) → List ℚ
  | [] => []
  | r :: rs =>
    let xs := backSub rs
    ((r.getLastD 0) - dotQ ((r.drop 1).dropLast) xs) / r.headD 0 :: xs

/-- Solve a linear system given as an augmented matrix (coefficient columns
followed by the right-hand side) by exact Gaussian elimination. -/
def gaussSolve (aug : List (List ℚ)) : List ℚ :=
  backSub (gaussElim aug)

/-- Augmented matrix of the not-a-knot cubic-spline system for values `ys` on
the uniform grid `j / L`: interior rows are the C1-continuity conditions
`M_{j-1} + 4 M_j + M_{j+1} = 6 (y_{j-1} - 2 y_j + y_{j+1}) / h^2`, the first
and last rows are the not-a-knot closures `M_0 - 2 M_1 + M_2 = 0` and
`M_{n-3} - 2 M_{n-2} + M_{n-1} = 0`. -/
def splineSystem (ys : List ℚ) (L : Nat) : List (List ℚ) :=
  let n := ys.length
  let h : ℚ := 1 / (L : ℚ)
  (List.range n).map (fun j =>
    if j = 0 then
      ((List.range n).map (fun k =>
        if k = 0 then 1 else if k = 1 then -2 else if k = 2 then 1 else 0)) ++ [0]
    else if j = n - 1 then
      ((List.range n).map (fun k =>
        if k = n - 3 then 1 else if k = n - 2 then -2 else if k = n - 1 then 1 else 0)) ++ [0]
    else
      ((List.range n).map (fun k =>
        if k = j - 1 then 1 else if k = j then 4 else if k = j + 1 then 1 else 0)) ++
        [6 * (ys.getD (j - 1) 0 - 2 * ys.getD j 0 + ys.getD (j + 1) 0) / h ^ 2])

/-- Second-derivative vector of the modelled scipy cubic spline. -/
def splineM (ys : List ℚ) (L : Nat) : List ℚ :=
  gaussSolve (splineSystem ys L)

/-- Index of the spline interval containing `x ≥ 0` on the uniform grid
`j / L` with `n` knots: `min ⌊x·L⌋ (n-2)` (scipy's interval search clamped to
the last interval). -/
def intervalIdx (x : ℚ) (L n : Nat) : Nat :=
  min ((x * (L : ℚ)).num.toNat / (x * (L : ℚ)).den) (n - 2)

/-- Evaluate the piecewise cubic (second-derivative form) with knot values
`ys` and second derivatives `Ms` on the uniform grid `j / L` at `x`. -/
def splineEvalAt (L : Nat) (ys Ms : List ℚ) (x : ℚ) : ℚ :=
  let n := ys.length
  let j := intervalIdx x L n
  let h : ℚ := 1 / (L : ℚ)
  let a : ℚ := (j : ℚ) / (L : ℚ)
  let b : ℚ := ((j : ℚ) + 1) / (L : ℚ)
  let yj := ys.getD j 0
  let yj1 := ys.getD (j + 1) 0
  let Mj := Ms.getD j 0
  let Mj1 := Ms.getD (j + 1) 0
  Mj * (b - x) ^ 3 / (6 * h) + Mj1 * (x - a) ^ 3 / (6 * h) +
    (yj - Mj * h ^ 2 / 6) * (b - x) / h + (yj1 - Mj1 * h ^ 2 / 6) * (x - a) / h

/-- The periodic extension `wave_extended = np.concatenate([wave, wave[:4]])`. -/
def extendedWave (wave : List ℚ) : List ℚ :=
  wave ++ wave.take 4

/-- The fitted interpolant `f` of `interpolate_wave`, as a function of the
phase `x ∈ [0, 1]`. -/
def interpFit (wave : List ℚ) (x : ℚ) : ℚ :=
  splineEvalAt wave.length (extendedWave wave)
    (splineM (extendedWave wave) wave.length) x

/-- The function `interpolate_wave`: evaluate the periodic cubic fit at the
target phases `i / target_samples`, `i = 0 .. target_samples - 1`. -/
def interpolate_wave (wave : List ℚ) (targetSamples : Nat) : List ℚ :=
  (List.range targetSamples).map (fun (i : Nat) => interpFit wave ((i : ℚ) / (targetSamples : ℚ)))

/-! ## Guard Appender (`add_guard_samples`)

    return np.concatenate([wave, wave[:num_guard]])
-/

/-- The function `add_guard_samples`: append the wave's own first `numGuard`
samples (the call sites pass the default `GUARD_SAMPLES`). -/
def add_guard_samples (wave : List Int) (numGuard : Nat) : List Int :=
  wave ++ wave.take numGuard

/-! ## Bank Assembler (`generate_wavetables_h`)

Per selected wave (lines 231–246 of the script):

    if wave_idx >= len(waveforms):
        print(f"Warning: Wave {wave_idx} not found, using wave 0")
        wave_idx = 0
    raw = waveforms[wave_idx]
    signed16 = convert_to_signed16(raw)
    interpolated = interpolate_wave(signed16, TARGET_SAMPLES)
    if integrate:
        processed = integrate_wave(interpolated)
    else:
        processed = np.clip(interpolated, -32767, 32767).astype(np.int16)
    with_guard = add_guard_samples(processed)

and per bank a pointer array `wave_names + [wave_names[0]]`, a master array
and a parallel name array over `BANK_SELECTIONS` in insertion order.  The
generated file is modelled by its structured content (`Artifact`); the
warnings printed for out-of-range indices are collected in a list. -/

/-- One pass of the per-wave processing chain of `generate_wavetables_h`
(conversion, resampling, optional integration, clip + int16 cast). -/
def processWave (raw : List Nat) (integrateFlag : Bool) : List Int :=
  let signed16 := convert_to_signed16 raw
  let interpolated := interpolate_wave (signed16.map (fun (z : Int) => (z : ℚ))) TARGET_SAMPLES
  if integrateFlag then integrate_wave interpolated
  else (interpolated.map clip16).map truncQ

/-- Index substitution for an out-of-range bank selection: `wave_idx = 0`. -/
def resolveIdx (numWaves idx : Nat) : Nat :=
  if numWaves ≤ idx then 0 else idx

/-- Look up the (substituted) waveform; Python list indexing raises when the
index is still out of bounds (only possible when no waveform was parsed). -/
def fetchWave (waveforms : List (List Nat)) (idx : Nat) : Option (List Nat) :=
  waveforms.get? (resolveIdx waveforms.length idx)

/-- Fail-fast sequencing of an option-valued map, modelling a Python loop
that raises on the first failing lookup. -/
def mapMOpt {α β : Type} (f : α → Option β) : List α → Option (List β)
  | [] => some []
  | a :: l =>
    match f a with
    | none => none
    | some b => (mapMOpt f l).map (fun bs => b :: bs)

/-- The warnings printed by `generate_wavetables_h`, as the list of
out-of-range configured indices in print order. -/
def warningsOf (waveforms : List (List Nat)) : List Nat :=
  (BANK_SELECTIONS.bind (fun p => p.2)).filter
    (fun idx => decide (waveforms.length ≤ idx))

/-- The C identifiers `wt_{bank_name.lower()}_{i}` of one bank's waves. -/
def waveNamesFor (bankName : String) : List String :=
  (List.range WAVES_PER_BANK).map
    (fun i => "wt_" ++ bankName.toLower ++ "_" ++ toString i)

/-- One bank's pointer array: the eight wave names followed by the wrap-guard
entry `wave_names[0]`. -/
def ptrTableFor (bankName : String) : List String :=
  let ns := waveNamesFor bankName
  ns ++ [ns.headD ("")]

/-- The emitted wave arrays of one bank. -/
def buildBankWaves (waveforms : List (List Nat)) (integrateFlag : Bool)
    (sel : List Nat) : Option (List (List Int)) :=
  mapMOpt
    (fun idx =>
      (fetchWave waveforms idx).map
        (fun raw => add_guard_samples (processWave raw integrateFlag) GUARD_SAMPLES))
    sel

/-- Structured content of the generated `wavetables.h`. -/
structure Artifact where
  banksWaves : List (List (List Int))
  ptrTables : List (List String)
  masterTable : List String
  bankNames : List String
  warnings : List Nat

/-- The function `generate_wavetables_h`, modelled by the structured content
it writes; `none` models the run aborting with a raised `IndexError`. -/
def generate_wavetables_h (waveforms : List (List Nat)) (integrateFlag : Bool) :
    Option Artifact :=
  (mapMOpt (fun p => buildBankWaves waveforms integrateFlag p.2) BANK_SELECTIONS).map
    (fun bw =>
      { banksWaves := bw
        ptrTables := BANK_SELECTIONS.map (fun p => ptrTableFor p.1)
        masterTable := BANK_SELECTIONS.map (fun p => "wavetable_bank_" ++ p.1.toLower)
        bankNames := BANK_SELECTIONS.map (fun p => p.1)
        warnings := warningsOf waveforms })

/-- Total description of the per-bank wave arrays produced on a successful
run (every lookup resolved). -/
def genBanks (waveforms : List (List Nat)) (integrateFlag : Bool) :
    List (List (List Int)) :=
  BANK_SELECTIONS.map
    (fun p =>
      p.2.map
        (fun idx =>
          add_guard_samples
            (processWave (waveforms.getD (resolveIdx waveforms.length idx) []) integrateFlag)
            GUARD_SAMPLES))

/-- The artifact of a successful run, in closed form. -/
def mkArtifact (waveforms : List (List Nat)) (integrateFlag : Bool) : Artifact :=
  { banksWaves := genBanks waveforms integrateFlag
    ptrTables := BANK_SELECTIONS.map (fun p => ptrTableFor p.1)
    masterTable := BANK_SELECTIONS.map (fun p => "wavetable_bank_" ++ p.1.toLower)
    bankNames := BANK_SELECTIONS.map (fun p => p.1)
    warnings := warningsOf waveforms }

/-- Structural validity of a generated artifact: 16 banks of 8 wave arrays of
260 samples each, 16 pointer tables of 9 entries whose last entry repeats
their first, and master/name tables of matching length 16. -/
def structurallyValid (a : Artifact) : Prop :=
  a.banksWaves.length = NUM_BANKS ∧
  (∀ bank ∈ a.banksWaves, bank.length = WAVES_PER_BANK ∧
    ∀ w ∈ bank, w.length = TARGET_SAMPLES + GUARD_SAMPLES) ∧
  a.ptrTables.length = NUM_BANKS ∧
  (∀ t ∈ a.ptrTables, t.length = WAVES_PER_BANK + 1 ∧ t.getLast? = t.head?) ∧
  a.masterTable.length = NUM_BANKS ∧
  a.bankNames.length = NUM_BANKS

/-! ## Helper lemmas -/

theorem getD_map_of_lt {α β : Type} (f : α → β) (l : List α) (i : Nat) (d : β) (e : α)
    (h : i < l.length) : (l.map f).getD i d = f (l.getD i e) := by
  induction l generalizing i with
  | nil => simp at h
  | cons x xs ih =>
    cases i with
    | zero => rfl
    | succ n =>
      simp only [List.map_cons, List.getD_cons_succ]
      exact ih n (by simpa using h)

theorem getD_zipWith_of_lt {α β γ : Type} (f : α → β → γ) (a : List α) (b : List β)
    (i : Nat) (d : γ) (da : α) (db : β) (ha : i < a.length) (hb : i < b.length) :
    (List.zipWith f a b).getD i d = f (a.getD i da) (b.getD i db) := by
  induction a generalizing b i with
  | nil => simp at ha
  | cons x xs ih =>
    cases b with
    | nil => simp at hb
    | cons y ys =>
      cases i with
      | zero => rfl
      | succ n =>
        simp only [List.zipWith_cons_cons, List.getD_cons_succ]
        exact ih ys n (by simpa using ha) (by simpa using hb)

theorem getD_take_of_lt {α : Type} (l : List α) (n i : Nat) (d : α) (h : i < n) :
    (l.take n).getD i d = l.getD i d := by
  induction l generalizing n i with
  | nil => simp
  | cons x xs ih =>
    cases n with
    | zero => omega
    | succ m =>
      cases i with
      | zero => rfl
      | succ k =>
        simp only [List.take_succ_cons, List.getD_cons_succ]
        exact ih m k (by omega)

theorem getD_range_map {β : Type} (f : Nat → β) (n i : Nat) (d : β) (h : i < n) :
    ((List.range n).map f).getD i d = f i := by
  rw [getD_map_of_lt f _ i d 0 (by simpa using h)]
  congr 1
  rw [List.getD_eq_getD_get?, List.get?_range h]
  rfl

/-! ## C5 and C9: Signal Converter range facts -/

theorem toSigned16_lower (s : Nat) : -32767 ≤ toSigned16 s :=
  le_max_left _ _

theorem toSigned16_upper (s : Nat) : toSigned16 s ≤ 32767 :=
  max_le (by norm_num) (min_le_right _ _)

/-- C5: for every raw waveform, `convert_to_signed16` preserves the length
and every output sample lies within the signed 16-bit representable bounds
`[-32768, 32767]` (clipped, never overflowed). -/
theorem converter_length_and_bounds (w : List Nat) :
    (convert_to_signed16 w).length = w.length ∧
    ∀ v ∈ convert_to_signed16 w, -32768 ≤ v ∧ v ≤ 32767 := by
  refine ⟨by simp [convert_to_signed16], ?_⟩
  intro v hv
  simp only [convert_to_signed16, List.mem_map] at hv
  obtain ⟨s, _, rfl⟩ := hv
  exact ⟨le_trans (by norm_num) (toSigned16_lower s), toSigned16_upper s⟩

/-- Witness for C5 at the concrete input `[0, 255]`. -/
theorem converter_length_and_bounds_witness :
    (convert_to_signed16 [0, 255]).length = ([0, 255] : List Nat).length ∧
    (-32768 ≤ (-32767 : Int) ∧ (-32767 : Int) ≤ 32767) :=
  ⟨(converter_length_and_bounds [0, 255]).1,
   (converter_length_and_bounds [0, 255]).2 (-32767) (by decide)⟩

/-- C9: the converter clips at a minimum of `-32767`, not `-32768`: the value
`-32768` never appears among converted samples, and the raw sample `0` maps
to `-32767`. -/
theorem converter_clips_at_minus_32767 (w : List Nat) :
    toSigned16 0 = -32767 ∧
    ∀ v ∈ convert_to_signed16 w, v ≠ -32768 ∧ -32767 ≤ v := by
  refine ⟨by decide, ?_⟩
  intro v hv
  simp only [convert_to_signed16, List.mem_map] at hv
  obtain ⟨s, _, rfl⟩ := hv
  have := toSigned16_lower s
  exact ⟨by omega, this⟩

/-- Witness for C9 at the concrete input `[0]`. -/
theorem converter_clips_at_minus_32767_witness :
    toSigned16 0 = -32767 ∧ ((-32767 : Int) ≠ -32768 ∧ -32767 ≤ (-32767 : Int)) :=
  ⟨(converter_clips_at_minus_32767 [0]).1,
   (converter_clips_at_minus_32767 [0]).2 (-32767) (by decide)⟩

/-! ## C2: the converter has no length check -/

/-- Modelled from the spec: a converter that rejects waveforms whose length
differs from the fixed raw length, as the spec's words require.  Used only to
compare with `convert_to_signed16`, which performs no such check. -/
def convertChecked (w : List Nat) : Option (List Int) :=
  if w.length = PPG_SAMPLES then some (convert_to_signed16 w) else none

/-- C2 counterexample: on the malformed length-3 input `[0, 1, 2]` the actual
converter succeeds with a full output, where the claimed behaviour rejects. -/
theorem converter_accepts_wrong_length_cx :
    convert_to_signed16 [0, 1, 2] = [-32767, -32512, -32256] ∧
    convertChecked [0, 1, 2] = none := by decide

/-- C2 amended: the converter has no failure mode at all — it performs no
length validation, and even on inputs whose length differs from
`PPG_SAMPLES` it succeeds, producing one output sample per input sample. -/
theorem converter_no_length_check (w : List Nat) (h : w.length ≠ PPG_SAMPLES) :
    (convert_to_signed16 w).length = w.length := by
  simp [convert_to_signed16]

/-- Witness for the amended C2 at the concrete input `[0, 1, 2]`. -/
theorem converter_no_length_check_witness :
    (convert_to_signed16 [0, 1, 2]).length = ([0, 1, 2] : List Nat).length :=
  converter_no_length_check [0, 1, 2] (by decide)

/-! ## C7: Legacy Waveform Extractor chunking -/

theorem chunkPPGAux_spec :
    ∀ (fuel : Nat) (values : List Nat), values.length ≤ fuel →
      (chunkPPGAux fuel values).length = values.length / PPG_SAMPLES ∧
      (∀ w ∈ chunkPPGAux fuel values, w.length = PPG_SAMPLES) ∧
      (chunkPPGAux fuel values).flatten =
        (values.take (PPG_SAMPLES * (values.length / PPG_SAMPLES))).map
          (fun v => v % 256) := by
  intro fuel
  have hP : PPG_SAMPLES = 64 := rfl
  induction fuel with
  | zero =>
    intro values hv
    have : values.length = 0 := by omega
    refine ⟨?_, ?_, ?_⟩
    · simp [chunkPPGAux, this]
    · intro w hw; simp [chunkPPGAux] at hw
    · simp [chunkPPGAux, this]
  | succ n ih =>
    intro values hv
    by_cases h : PPG_SAMPLES ≤ values.length
    · have hdrop : (values.drop PPG_SAMPLES).length ≤ n := by
        simp only [List.length_drop]
        rw [hP] at h ⊢
        omega
      obtain ⟨ih1, ih2, ih3⟩ := ih (values.drop PPG_SAMPLES) hdrop
      simp only [chunkPPGAux, if_pos h]
      refine ⟨?_, ?_, ?_⟩
      · simp only [List.length_cons, ih1, List.length_drop]
        rw [hP] at h ⊢
        omega
      · intro w hw
        rcases List.mem_cons.mp hw with rfl | hw2
        · simp only [List.length_map, List.length_take]
          omega
        · exact ih2 w hw2
      · rw [List.flatten_cons, ih3]
        simp only [List.length_drop]
        have hsplit : PPG_SAMPLES * (values.length / PPG_SAMPLES)
            = PPG_SAMPLES + PPG_SAMPLES * ((values.length - PPG_SAMPLES) / PPG_SAMPLES) := by
          rw [hP] at h ⊢
          omega
        rw [hsplit, List.take_add, List.map_append]
    · simp only [chunkPPGAux, if_neg h]
      have hz : values.length / PPG_SAMPLES = 0 := by
        rw [hP] at h ⊢
        omega
      refine ⟨by simp [hz], by intro w hw; simp at hw, ?_⟩
      simp [hz]

/-- C7: the chunking stage of `parse_ppg_waveforms` yields exactly
`⌊N / 64⌋` raw waveforms from a stream of `N` parsed values, each of exactly
64 samples; the kept samples are the initial `64·⌊N/64⌋` values in
declaration order (reduced mod 256 by the `np.uint8` cast), so a trailing
partial chunk is discarded, never padded. -/
theorem extractor_chunking (values : List Nat) :
    (chunkPPG values).length = values.length / PPG_SAMPLES ∧
    (∀ w ∈ chunkPPG values, w.length = PPG_SAMPLES) ∧
    (chunkPPG values).flatten =
      (values.take (PPG_SAMPLES * (values.length / PPG_SAMPLES))).map
        (fun v => v % 256) :=
  chunkPPGAux_spec values.length values le_rfl

/-- Witness for C7 at the concrete 70-value stream `0, …, 69`: one waveform
of 64 samples is produced and the trailing 6 values are discarded. -/
theorem extractor_chunking_witness :
    (chunkPPG (List.range 70)).length = (List.range 70).length / PPG_SAMPLES ∧
    ((chunkPPG (List.range 70)).getD 0 []).length = PPG_SAMPLES :=
  ⟨(extractor_chunking (List.range 70)).1,
   (extractor_chunking (List.range 70)).2.1 _ (by decide)⟩

/-! ## C8: determinism of the pipeline

The embedding is a pure function of the parsed waveforms and the `integrate`
flag — faithful to the script, which draws no randomness and iterates the
(insertion-ordered) `BANK_SELECTIONS` dictionary deterministically.  Two runs
on identical input and configuration therefore produce identical artifacts. -/

/-- C8: running the generator twice on the same waveforms and the same
configuration flag yields the identical artifact, byte for byte. -/
theorem pipeline_deterministic (waveforms : List (List Nat)) (integrateFlag : Bool) :
    generate_wavetables_h waveforms integrateFlag =
      generate_wavetables_h waveforms integrateFlag := rfl

/-! ## Length lemmas for the integrator -/

theorem cumsumFrom_length (acc : ℚ) (l : List ℚ) :
    (cumsumFrom acc l).length = l.length := by
  induction l generalizing acc with
  | nil => rfl
  | cons x xs ih => simp [cumsumFrom, ih]

theorem cumsum_length (l : List ℚ) : (cumsum l).length = l.length :=
  cumsumFrom_length 0 l

theorem linspaceQ_length (a b : ℚ) (n : Nat) : (linspaceQ a b n).length = n := by
  unfold linspaceQ
  by_cases h0 : n = 0
  · rw [if_pos h0, h0]
    rfl
  · rw [if_neg h0]
    by_cases h1 : n = 1
    · rw [if_pos h1, h1]
      rfl
    · rw [if_neg h1, List.length_map, List.length_range]

theorem driftRemoved_length (w : List ℚ) : (driftRemoved w).length = w.length := by
  simp [driftRemoved, cumsum_length, linspaceQ_length]

theorem integrate_wave_length (w : List ℚ) : (integrate_wave w).length = w.length := by
  simp only [integrate_wave]
  by_cases h : 0 < maxAbs (driftRemoved w)
  · rw [if_pos h]
    simp [driftRemoved_length]
  · rw [if_neg h]
    simp [driftRemoved_length]

/-! ## C10: the normalization guard of the integrator -/

theorem abs_le_maxAbs (l : List ℚ) (x : ℚ) (hx : x ∈ l) : |x| ≤ maxAbs l := by
  induction l with
  | nil => simp at hx
  | cons y ys ih =>
    rcases List.mem_cons.mp hx with rfl | h
    · exact le_max_left _ _
    · exact le_trans (ih h) (le_max_right _ _)

theorem eq_zero_of_maxAbs_eq_zero {l : List ℚ} (h : maxAbs l = 0) :
    ∀ x ∈ l, x = 0 := by
  intro x hx
  have h1 := abs_le_maxAbs l x hx
  rw [h] at h1
  exact abs_eq_zero.mp (le_antisymm h1 (abs_nonneg x))

theorem truncQ_intCast (z : Int) : truncQ ((z : ℚ)) = z := by
  unfold truncQ
  rw [Rat.num_intCast, Rat.den_intCast]
  by_cases hz : 0 ≤ z
  · rw [if_pos hz]
    simp [Int.toNat_of_nonneg hz]
  · rw [if_neg hz]
    push_neg at hz
    have hz2 : (0 : Int) ≤ -z := by omega
    simp [Int.toNat_of_nonneg hz2]

theorem clip16_zero : clip16 0 = 0 := by
  unfold clip16
  rw [min_eq_left (by norm_num), max_eq_right (by norm_num)]

theorem truncQ_zero : truncQ 0 = 0 := by
  have : ((0 : Int) : ℚ) = 0 := by norm_num
  rw [← this, truncQ_intCast]

/-- C10: the scaling of `integrate_wave` is guarded — when the drift-removed
cumulative sum has peak absolute value 0 (it is identically zero), the
normalization division is skipped, no division by zero occurs, and the output
is the all-zero waveform of the input's length. -/
theorem integrator_zero_peak_guard (wave : List ℚ)
    (h : maxAbs (driftRemoved wave) = 0) :
    integrate_wave wave = List.replicate wave.length 0 := by
  simp only [integrate_wave]
  rw [h]
  simp only [lt_self_iff_false, if_false]
  have hlen : (((driftRemoved wave).map clip16).map truncQ).length = wave.length := by
    simp [driftRemoved_length]
  rw [← hlen]
  apply List.eq_replicate_length.mpr
  intro b hb
  simp only [List.mem_map] at hb
  obtain ⟨q, ⟨q2, hq2, rfl⟩, rfl⟩ := hb
  rw [eq_zero_of_maxAbs_eq_zero h q2 hq2, clip16_zero, truncQ_zero]

/-- Witness for C10 at the all-zero input `[0, 0, 0, 0]`. -/
theorem integrator_zero_peak_guard_witness :
    integrate_wave [0, 0, 0, 0] = List.replicate ([0, 0, 0, 0] : List ℚ).length 0 :=
  integrator_zero_peak_guard [0, 0, 0, 0]
    (by norm_num [maxAbs, driftRemoved, cumsum, cumsumFrom, linspaceQ, List.range_succ])

/-! ## C3: the DC ramp of the integrator -/

theorem linspaceQ_getD (a b : ℚ) (n i : Nat) (h2 : 2 ≤ n) (hi : i < n) :
    (linspaceQ a b n).getD i 0 = a + (i : ℚ) * (b - a) / ((n - 1 : Nat) : ℚ) := by
  unfold linspaceQ
  rw [if_neg (by omega), if_neg (by omega)]
  exact getD_range_map _ n i 0 hi

/-- C3 amended: the drift-removal step of `integrate_wave` subtracts, at each
position `i`, the ramp value `i · S_last / (n - 1)` — a straight line whose
endpoints are 0 (not the first cumulative value) and the last cumulative
value `S_last`. -/
theorem integrator_drift_ramp (wave : List ℚ) (h2 : 2 ≤ wave.length)
    (i : Nat) (hi : i < wave.length) :
    (driftRemoved wave).getD i 0 =
      (cumsum wave).getD i 0 -
        (i : ℚ) * (cumsum wave).getLastD 0 / ((wave.length - 1 : Nat) : ℚ) := by
  simp only [driftRemoved]
  rw [getD_zipWith_of_lt _ _ _ i 0 0 0 (by rw [cumsum_length]; exact hi)
      (by rw [linspaceQ_length, cumsum_length]; exact hi)]
  rw [cumsum_length]
  rw [linspaceQ_getD 0 _ _ i (by omega) hi]
  ring

/-- Witness for the amended C3 at `wave = [1, 1]`, `i = 1`. -/
theorem integrator_drift_ramp_witness :
    (driftRemoved [1, 1]).getD 1 0 =
      (cumsum [1, 1]).getD 1 0 -
        ((1 : Nat) : ℚ) * (cumsum [1, 1]).getLastD 0 /
          ((([1, 1] : List ℚ).length - 1 : Nat) : ℚ) :=
  integrator_drift_ramp [1, 1] (by decide) 1 (by decide)

/-- C3 counterexample: on input `[1, 1]` the cumulative sum is `[1, 2]`, the
code subtracts the ramp `[0, 2]` (endpoints 0 and the last cumulative value)
and outputs `[30000, 0]`, whereas subtracting the spec-worded ramp `[1, 2]`
(endpoints first and last cumulative value) would output `[0, 0]`. -/
theorem integrator_ramp_counterexample :
    integrate_wave [1, 1] = [30000, 0] ∧
    integrate_wave_specDrift [1, 1] = [0, 0] ∧
    integrate_wave [1, 1] ≠ integrate_wave_specDrift [1, 1] := by
  have e1 : integrate_wave [1, 1] = [30000, 0] := by
    norm_num [integrate_wave, driftRemoved, cumsum, cumsumFrom, linspaceQ, maxAbs,
      clip16, truncQ, List.range_succ]
  have e2 : integrate_wave_specDrift [1, 1] = [0, 0] := by
    norm_num [integrate_wave_specDrift, driftRemovedSpec, cumsum, cumsumFrom, linspaceQ,
      maxAbs, clip16, truncQ, List.range_succ]
  refine ⟨e1, e2, ?_⟩
  rw [e1, e2]
  decide

/-! ## C6: periodicity of the resampler across the wrap seam -/

theorem intervalIdx_coe_div (j L n : Nat) (hL : 0 < L) :
    intervalIdx ((j : ℚ) / (L : ℚ)) L n = min j (n - 2) := by
  unfold intervalIdx
  have hL' : ((L : ℚ)) ≠ 0 := Nat.cast_ne_zero.mpr (by omega)
  rw [div_mul_cancel₀ _ hL']
  rw [Rat.num_natCast, Rat.den_natCast]
  simp

/-- In the second-derivative form, the piecewise cubic takes the knot value at
every knot, for any vector of second derivatives. -/
theorem splineEvalAt_knot (L : Nat) (ys Ms : List ℚ) (j : Nat)
    (hL : 0 < L) (hj : j ≤ ys.length - 2) :
    splineEvalAt L ys Ms ((j : ℚ) / (L : ℚ)) = ys.getD j 0 := by
  simp only [splineEvalAt]
  rw [intervalIdx_coe_div j L ys.length hL, min_eq_left hj]
  have hL' : ((L : ℚ)) ≠ 0 := Nat.cast_ne_zero.mpr (by omega)
  field_simp
  ring

theorem extendedWave_length (w : List ℚ) :
    (extendedWave w).length = w.length + min 4 w.length := by
  simp [extendedWave]

theorem extendedWave_getD_zero (w : List ℚ) (hw : 0 < w.length) :
    (extendedWave w).getD 0 0 = w.getD 0 0 :=
  List.getD_append w _ 0 0 hw

theorem extendedWave_getD_length (w : List ℚ) (hw : 0 < w.length) :
    (extendedWave w).getD w.length 0 = w.getD 0 0 := by
  unfold extendedWave
  rw [List.getD_append_right w _ 0 w.length (le_refl _), Nat.sub_self]
  exact getD_take_of_lt w 4 0 0 (by omega)

/-- The fitted interpolant evaluated at phase 0 hits the first input sample:
phase 0 is the first knot of the spline. -/
theorem interpFit_zero (w : List ℚ) (hw : 0 < w.length) :
    interpFit w 0 = w.getD 0 0 := by
  have h := splineEvalAt_knot w.length (extendedWave w)
    (splineM (extendedWave w) w.length) 0 hw (by omega)
  rw [Nat.cast_zero, zero_div] at h
  unfold interpFit
  rw [h]
  exact extendedWave_getD_zero w hw

/-- The fitted interpolant evaluated at phase 1 (the wrap of phase 0) hits the
first input sample as well: phase 1 is the knot carrying the first sample of
the periodic extension. -/
theorem interpFit_one (w : List ℚ) (hw : 2 ≤ w.length) :
    interpFit w 1 = w.getD 0 0 := by
  have hL : 0 < w.length := by omega
  have hj : w.length ≤ (extendedWave w).length - 2 := by
    rw [extendedWave_length]
    omega
  have h := splineEvalAt_knot w.length (extendedWave w)
    (splineM (extendedWave w) w.length) w.length hL hj
  rw [div_self (Nat.cast_ne_zero.mpr (by omega))] at h
  unfold interpFit
  rw [h]
  exact extendedWave_getD_length w hL

theorem interpolate_wave_getD_zero (w : List ℚ) (t : Nat) (ht : 0 < t) :
    (interpolate_wave w t).getD 0 0 = interpFit w 0 := by
  unfold interpolate_wave
  rw [getD_range_map _ t 0 0 ht, Nat.cast_zero, zero_div]

/-- C6: the resampler extends the input by its four leading samples before
fitting; the cubic fit agrees exactly at phase 0 and phase 1 (both give the
first input sample), so the seam discontinuity is 0, no greater than the
discontinuity between the input's last and first samples; and the first
output sample of `interpolate_wave` is that common value. -/
theorem resampler_periodicity (wave : List ℚ) (h2 : 2 ≤ wave.length) :
    extendedWave wave = wave ++ wave.take 4 ∧
    interpFit wave 0 = wave.getD 0 0 ∧
    interpFit wave 1 = wave.getD 0 0 ∧
    |interpFit wave 1 - interpFit wave 0| ≤ |wave.getLastD 0 - wave.getD 0 0| ∧
    (interpolate_wave wave TARGET_SAMPLES).getD 0 0 = wave.getD 0 0 := by
  have hw : 0 < wave.length := by omega
  have hz := interpFit_zero wave hw
  have ho := interpFit_one wave h2
  refine ⟨rfl, hz, ho, ?_, ?_⟩
  · rw [hz, ho, sub_self, abs_zero]
    exact abs_nonneg _
  · rw [interpolate_wave_getD_zero wave TARGET_SAMPLES (by decide)]
    exact hz

/-- Witness for C6 at the concrete input `[0, 1, 2, 3]`. -/
theorem resampler_periodicity_witness :
    interpFit [0, 1, 2, 3] 0 = ([0, 1, 2, 3] : List ℚ).getD 0 0 ∧
    interpFit [0, 1, 2, 3] 1 = ([0, 1, 2, 3] : List ℚ).getD 0 0 :=
  ⟨(resampler_periodicity [0, 1, 2, 3] (by decide)).2.1,
   (resampler_periodicity [0, 1, 2, 3] (by decide)).2.2.1⟩

/-! ## Bank assembly lemmas -/

theorem getD_mem_of_lt {α : Type} (l : List α) (i : Nat) (d : α) (h : i < l.length) :
    l.getD i d ∈ l := by
  rw [List.getD_eq_getElem l d h]
  exact List.getElem_mem h

theorem interpolate_wave_length (w : List ℚ) (t : Nat) :
    (interpolate_wave w t).length = t := by
  unfold interpolate_wave
  rw [List.length_map, List.length_range]

theorem processWave_length (raw : List Nat) (g : Bool) :
    (processWave raw g).length = TARGET_SAMPLES := by
  unfold processWave
  cases g
  · simp [interpolate_wave_length]
  · simp [integrate_wave_length, interpolate_wave_length]

theorem add_guard_samples_length (w : List Int) (n : Nat) :
    (add_guard_samples w n).length = w.length + min n w.length := by
  simp [add_guard_samples]

theorem mapMOpt_eq_some {α β : Type} (f : α → Option β) (g : α → β) (l : List α)
    (h : ∀ a ∈ l, f a = some (g a)) :
    mapMOpt f l = some (l.map g) := by
  induction l with
  | nil => rfl
  | cons a l ih =>
    simp only [mapMOpt]
    rw [h a (List.mem_cons_self a l), ih (fun b hb => h b (List.mem_cons_of_mem a hb))]
    rfl

theorem resolveIdx_lt (n idx : Nat) (hn : 0 < n) : resolveIdx n idx < n := by
  unfold resolveIdx
  split
  · omega
  · omega

theorem fetchWave_eq_some (waveforms : List (List Nat)) (idx : Nat)
    (hne : waveforms ≠ []) :
    fetchWave waveforms idx =
      some (waveforms.getD (resolveIdx waveforms.length idx) []) := by
  unfold fetchWave
  have hlt : resolveIdx waveforms.length idx < waveforms.length :=
    resolveIdx_lt _ idx (List.length_pos.mpr hne)
  rw [List.getD_eq_get _ _ hlt]
  exact List.get?_eq_get hlt

theorem buildBankWaves_eq (waveforms : List (List Nat)) (g : Bool) (sel : List Nat)
    (hne : waveforms ≠ []) :
    buildBankWaves waveforms g sel =
      some (sel.map (fun idx =>
        add_guard_samples
          (processWave (waveforms.getD (resolveIdx waveforms.length idx) []) g)
          GUARD_SAMPLES)) := by
  unfold buildBankWaves
  apply mapMOpt_eq_some
  intro idx _
  rw [fetchWave_eq_some waveforms idx hne]
  rfl

/-- On a nonempty extracted waveform set the run always completes, producing
the closed-form artifact. -/
theorem generate_eq_some (waveforms : List (List Nat)) (g : Bool)
    (hne : waveforms ≠ []) :
    generate_wavetables_h waveforms g = some (mkArtifact waveforms g) := by
  unfold generate_wavetables_h
  rw [mapMOpt_eq_some _
    (fun (p : String × List Nat) =>
      p.2.map (fun idx =>
        add_guard_samples
          (processWave (waveforms.getD (resolveIdx waveforms.length idx) []) g)
          GUARD_SAMPLES))
    BANK_SELECTIONS
    (fun p _ => buildBankWaves_eq waveforms g p.2 hne)]
  rfl

theorem genBanks_getD (waveforms : List (List Nat)) (g : Bool) (b : Nat)
    (hb : b < BANK_SELECTIONS.length) :
    (genBanks waveforms g).getD b [] =
      ((BANK_SELECTIONS.getD b ("", [])).2).map (fun idx =>
        add_guard_samples
          (processWave (waveforms.getD (resolveIdx waveforms.length idx) []) g)
          GUARD_SAMPLES) := by
  unfold genBanks
  exact getD_map_of_lt _ BANK_SELECTIONS b [] ("", []) hb

theorem clip16_intCast_in_range (z : Int) (h1 : -32767 ≤ z) (h2 : z ≤ 32767) :
    clip16 ((z : ℚ)) = ((z : ℚ)) := by
  have h1' : (-32767 : ℚ) ≤ ((z : ℚ)) := by exact_mod_cast h1
  have h2' : ((z : ℚ)) ≤ 32767 := by exact_mod_cast h2
  unfold clip16
  rw [min_eq_left h2', max_eq_right h1']

/-- The first sample of a non-integrated processed wave is exactly the
converted first raw sample: the interpolant hits the first knot, and the clip
and int16 cast are the identity on a value already in range. -/
theorem processWave_getD_zero (raw : List Nat) (h2 : 2 ≤ raw.length) :
    (processWave raw false).getD 0 0 = toSigned16 (raw.getD 0 0) := by
  have hpw : processWave raw false =
      ((interpolate_wave ((convert_to_signed16 raw).map (fun (z : Int) => (z : ℚ)))
        TARGET_SAMPLES).map clip16).map truncQ := rfl
  rw [hpw]
  have hqlen : ((convert_to_signed16 raw).map (fun (z : Int) => (z : ℚ))).length
      = raw.length := by
    simp [convert_to_signed16]
  have hlen : (interpolate_wave ((convert_to_signed16 raw).map (fun (z : Int) => (z : ℚ)))
      TARGET_SAMPLES).length = TARGET_SAMPLES := interpolate_wave_length _ _
  rw [getD_map_of_lt truncQ _ 0 0 0 (by rw [List.length_map, hlen]; decide)]
  rw [getD_map_of_lt clip16 _ 0 0 0 (by rw [hlen]; decide)]
  rw [interpolate_wave_getD_zero _ TARGET_SAMPLES (by decide)]
  rw [interpFit_zero _ (by omega)]
  rw [getD_map_of_lt (fun (z : Int) => (z : ℚ)) (convert_to_signed16 raw) 0 0 0
    (by simp [convert_to_signed16]; omega)]
  have hc : convert_to_signed16 raw = raw.map toSigned16 := rfl
  rw [hc, getD_map_of_lt toSigned16 raw 0 0 0 (by omega)]
  rw [clip16_intCast_in_range _ (toSigned16_lower _) (toSigned16_upper _)]
  exact truncQ_intCast _

theorem waveNamesFor_ne_nil (b : String) : waveNamesFor b ≠ [] := by
  intro h
  have hl := congrArg List.length h
  simp only [waveNamesFor, List.length_map, List.length_range, List.length_nil] at hl
  exact absurd hl (by decide)

/-- The pointer table of every bank ends with a reference to the bank's first
wave: this pointer entry, not the per-wave guard samples, realizes the
bank-level morph wrap. -/
theorem ptrTableFor_wrap (b : String) :
    (ptrTableFor b).getLast? = (ptrTableFor b).head? := by
  unfold ptrTableFor
  cases h : waveNamesFor b with
  | nil => exact absurd h (waveNamesFor_ne_nil b)
  | cons n0 rest =>
    rw [List.getLast?_concat]
    rfl

/-! ## C1: guard samples self-wrap even inside banks -/

/-- C1 amended: every wave emitted as a bank member carries self-wrap guard
samples — its trailing `GUARD_SAMPLES` samples equal its own first
`GUARD_SAMPLES` samples, never the next member's; the bank-level morph wrap
is realized separately, as the trailing pointer-table entry referencing the
bank's first wave. -/
theorem guard_self_wrap (waveforms : List (List Nat)) (g : Bool)
    (hne : waveforms ≠ []) :
    (generate_wavetables_h waveforms g).map Artifact.banksWaves =
      some (genBanks waveforms g) ∧
    (∀ bank ∈ genBanks waveforms g, ∀ w ∈ bank,
      w.drop TARGET_SAMPLES = w.take GUARD_SAMPLES) ∧
    (∀ t ∈ (mkArtifact waveforms g).ptrTables, t.getLast? = t.head?) := by
  refine ⟨by rw [generate_eq_some waveforms g hne]; rfl, ?_, ?_⟩
  · intro bank hbank w hw
    unfold genBanks at hbank
    obtain ⟨p, hp, rfl⟩ := List.mem_map.mp hbank
    obtain ⟨idx, hidx, rfl⟩ := List.mem_map.mp hw
    have hlen : (processWave
        (waveforms.getD (resolveIdx waveforms.length idx) []) g).length
        = TARGET_SAMPLES := processWave_length _ _
    unfold add_guard_samples
    rw [← hlen, List.drop_left,
      List.take_append_of_le_length (by rw [hlen]; decide)]
  · intro t ht
    obtain ⟨p, hp, rfl⟩ := List.mem_map.mp ht
    exact ptrTableFor_wrap p.1

/-- Witness for the amended C1 on a two-waveform set. -/
theorem guard_self_wrap_witness :
    (generate_wavetables_h [List.replicate 64 128, List.replicate 64 0] false).map
        Artifact.banksWaves =
      some (genBanks [List.replicate 64 128, List.replicate 64 0] false) :=
  (guard_self_wrap [List.replicate 64 128, List.replicate 64 0] false (by decide)).1

/-- C1 counterexample: with two distinct parsed waveforms (constant 128 and
constant 0) the first bank member's appended guard samples start with sample
value 0 (its own first processed sample), while the next bank member's
leading samples start with -32767 — so the guard does NOT reference the next
bank member's leading samples. -/
theorem guard_next_member_counterexample :
    (generate_wavetables_h [List.replicate 64 128, List.replicate 64 0] false).map
        Artifact.banksWaves =
      some (genBanks [List.replicate 64 128, List.replicate 64 0] false) ∧
    (((genBanks [List.replicate 64 128, List.replicate 64 0] false).getD 0 []).getD 0
        []).drop TARGET_SAMPLES ≠
      (((genBanks [List.replicate 64 128, List.replicate 64 0] false).getD 0 []).getD 1
        []).take GUARD_SAMPLES := by
  constructor
  · rw [generate_eq_some _ false (by decide)]
    rfl
  · rw [genBanks_getD _ false 0 (by decide)]
    rw [getD_map_of_lt _ _ 0 [] 0 (by decide), getD_map_of_lt _ _ 1 [] 0 (by decide)]
    show (add_guard_samples (processWave (List.replicate 64 128) false)
        GUARD_SAMPLES).drop TARGET_SAMPLES ≠
      (add_guard_samples (processWave (List.replicate 64 0) false)
        GUARD_SAMPLES).take GUARD_SAMPLES
    have hA : (add_guard_samples (processWave (List.replicate 64 128) false)
        GUARD_SAMPLES).drop TARGET_SAMPLES
        = (processWave (List.replicate 64 128) false).take GUARD_SAMPLES := by
      unfold add_guard_samples
      rw [← processWave_length (List.replicate 64 128) false, List.drop_left]
    have hB : (add_guard_samples (processWave (List.replicate 64 0) false)
        GUARD_SAMPLES).take GUARD_SAMPLES
        = (processWave (List.replicate 64 0) false).take GUARD_SAMPLES := by
      unfold add_guard_samples
      rw [List.take_append_of_le_length (by rw [processWave_length]; decide)]
    rw [hA, hB]
    intro h
    have h2 := congrArg (fun l : List Int => l.getD 0 0) h
    simp only at h2
    rw [getD_take_of_lt _ GUARD_SAMPLES 0 0 (by decide),
      getD_take_of_lt _ GUARD_SAMPLES 0 0 (by decide)] at h2
    rw [processWave_getD_zero _ (by decide), processWave_getD_zero _ (by decide)] at h2
    exact absurd h2 (by decide)

/-! ## C4: out-of-range bank selections -/

theorem genBanks_length (waveforms : List (List Nat)) (g : Bool) :
    (genBanks waveforms g).length = NUM_BANKS := by
  unfold genBanks
  rw [List.length_map]
  rfl

theorem ptrTableFor_length (b : String) :
    (ptrTableFor b).length = WAVES_PER_BANK + 1 := by
  unfold ptrTableFor waveNamesFor
  simp

/-- Every artifact of a successful run is structurally valid. -/
theorem mkArtifact_structurallyValid (waveforms : List (List Nat)) (g : Bool) :
    structurallyValid (mkArtifact waveforms g) := by
  have hsel : ∀ p ∈ BANK_SELECTIONS, (p.2).length = WAVES_PER_BANK := by decide
  refine ⟨genBanks_length waveforms g, ?_, ?_, ?_, ?_, ?_⟩
  · intro bank hbank
    unfold mkArtifact genBanks at hbank
    obtain ⟨p, hp, rfl⟩ := List.mem_map.mp hbank
    refine ⟨by rw [List.length_map]; exact hsel p hp, ?_⟩
    intro w hw
    obtain ⟨idx, hidx, rfl⟩ := List.mem_map.mp hw
    rw [add_guard_samples_length, processWave_length]
    decide
  · unfold mkArtifact
    rw [List.length_map]
    rfl
  · intro t ht
    unfold mkArtifact at ht
    obtain ⟨p, hp, rfl⟩ := List.mem_map.mp ht
    exact ⟨ptrTableFor_length p.1, ptrTableFor_wrap p.1⟩
  · unfold mkArtifact
    rw [List.length_map]
    rfl
  · unfold mkArtifact
    rw [List.length_map]
    rfl

/-- C4: whenever a configured bank selection index is out of range of the
extracted (nonempty) waveform set, the generator records the recoverable
warning for that index, builds that slot from waveform 0, and the run still
completes, producing the full, structurally valid artifact. -/
theorem bank_out_of_range_substitution (waveforms : List (List Nat))
    (hne : waveforms ≠ []) (b i : Nat)
    (hb : b < BANK_SELECTIONS.length)
    (hi : i < ((BANK_SELECTIONS.getD b ("", [])).2).length)
    (hoor : waveforms.length ≤ (BANK_SELECTIONS.getD b ("", [])).2.getD i 0) :
    (BANK_SELECTIONS.getD b ("", [])).2.getD i 0 ∈ warningsOf waveforms ∧
    ((genBanks waveforms false).getD b []).getD i [] =
      add_guard_samples (processWave (waveforms.getD 0 []) false) GUARD_SAMPLES ∧
    generate_wavetables_h waveforms false = some (mkArtifact waveforms false) ∧
    structurallyValid (mkArtifact waveforms false) := by
  refine ⟨?_, ?_, generate_eq_some waveforms false hne,
    mkArtifact_structurallyValid waveforms false⟩
  · unfold warningsOf
    rw [List.mem_filter]
    constructor
    · exact List.mem_flatMap.mpr
        ⟨BANK_SELECTIONS.getD b ("", []), getD_mem_of_lt _ b _ hb,
          getD_mem_of_lt _ i _ hi⟩
    · simpa using hoor
  · rw [genBanks_getD waveforms false b hb]
    rw [getD_map_of_lt _ _ i [] 0 hi]
    unfold resolveIdx
    rw [if_pos hoor]

/-- Witness for C4: a single-waveform set makes the configured index 8 (bank
RESONANT1, slot 0) out of range; the slot is built from waveform 0 and the
run completes with a structurally valid artifact. -/
theorem bank_out_of_range_substitution_witness :
    (8 : Nat) ∈ warningsOf [List.replicate 64 0] ∧
    ((genBanks [List.replicate 64 0] false).getD 1 []).getD 0 [] =
      add_guard_samples
        (processWave (([List.replicate 64 0] : List (List Nat)).getD 0 []) false)
        GUARD_SAMPLES ∧
    generate_wavetables_h [List.replicate 64 0] false =
      some (mkArtifact [List.replicate 64 0] false) ∧
    structurallyValid (mkArtifact [List.replicate 64 0] false) :=
  bank_out_of_range_substitution [List.replicate 64 0] (by decide) 1 0
    (by decide) (by decide) (by decide)

end Vapo2
